import Mathlib

/-!
Verification of `couchutil` (files `changes.py`, `reservation.py`, `iterview.py`)
against its natural-language specification.

The Python code is shallowly embedded: pure fragments become Lean functions,
the CouchDB database and the checkpoint statefile become explicit state that
is threaded through each operation, and Python exceptions become `Except` /
`Option` error values.  Python `int` is modelled as `Int`, Python strings as
Lean `String` (a list of characters in this toolchain).
-/

namespace Couchutil

/-! ## Checkpoint statefile codec

`ChangesProcessor._read_startkey` does `int(open(statefile, 'rb').read())`,
returning `None` on `IOError` (missing file) or `ValueError` (unparsable
content).  `ChangesProcessor._write_startkey` does
`open(statefile, 'wb').write(str(startkey))`.

A sequence token coming back from the `_changes` feed is an arbitrary JSON
scalar; we model it as either an integer or a string. -/

/-- A sequence token as handed around by the code: CouchDB delivers a JSON
scalar in `row['seq']`; classic CouchDB uses integers, clustered versions use
opaque strings. -/
inductive Token where
  | int (n : Int) : Token
  | str (s : String) : Token
deriving DecidableEq

/-- The decimal digit character for `d % 10`, as produced by Python `str`. -/
def digitChar (d : Nat) : Char := Char.ofNat (48 + d % 10)

/-- Decimal rendering of a natural number, most significant digit first: the
digit loop underlying Python `str(n)` for `n ≥ 0`.  The first argument is
recursion fuel; `n + 1` is always enough since `n / 10 < n` for `n ≥ 10`. -/
def natStrGo : Nat → Nat → List Char → List Char
  | 0, _, acc => acc
  | fuel + 1, n, acc =>
    let acc' := digitChar (n % 10) :: acc
    if n < 10 then acc' else natStrGo fuel (n / 10) acc'

/-- Decimal rendering of a natural number. -/
def natStr (n : Nat) : List Char := natStrGo (n + 1) n []

/-- Python `str(n)` for an `int` `n`, as a character list. -/
def intStrChars (n : Int) : List Char :=
  if n < 0 then '-' :: natStr n.natAbs else natStr n.natAbs

/-- Python `str(n)` for an `int` `n`. -/
def strOfInt (n : Int) : String := String.mk (intStrChars n)

/-- Python `str(tok)` applied to a sequence token: an `int` renders in
decimal, a `str` renders as itself. -/
def tokenStr : Token → String
  | .int n => strOfInt n
  | .str s => s

/-- The whitespace characters stripped by Python `int()` parsing. -/
def isPySpace (c : Char) : Bool :=
  c = ' ' || c = '\t' || c = '\n' || c = '\r' || c = '\x0b' || c = '\x0c'

/-- Strip leading and trailing whitespace, as Python `int()` does before
parsing. -/
def stripChars (l : List Char) : List Char :=
  ((l.dropWhile isPySpace).reverse.dropWhile isPySpace).reverse

/-- Numeric value of a digit character. -/
def digitVal (c : Char) : Nat := c.toNat - 48

/-- Accumulating decimal parse: fails on the first non-digit character. -/
def parseDigitsAux (a : Nat) : List Char → Option Nat
  | [] => some a
  | c :: cs => if c.isDigit then parseDigitsAux (a * 10 + digitVal c) cs else none

/-- Parse a nonempty all-digit character list; `none` otherwise
(Python `int('')` raises `ValueError`). -/
def parseDigits : List Char → Option Nat
  | [] => none
  | c :: cs => parseDigitsAux 0 (c :: cs)

/-- Optional sign followed by decimal digits, the core of Python `int()`. -/
def parseSigned : List Char → Option Int
  | [] => none
  | c :: cs =>
    if c = '-' then (parseDigits cs).map (fun m : Nat => -(m : Int))
    else if c = '+' then (parseDigits cs).map (fun m : Nat => (m : Int))
    else (parseDigits (c :: cs)).map (fun m : Nat => (m : Int))

/-- Python `int(s)`: strip whitespace, optional sign, decimal digits;
`none` models `ValueError`. -/
def parsePyIntChars (l : List Char) : Option Int :=
  parseSigned (stripChars l)

/-- `ChangesProcessor._read_startkey`: the statefile contents (or `none` when
the file is missing, the `IOError` case) parsed with `int()`; a
`ValueError` yields `none`. -/
def readStartkey : Option String → Option Int
  | none => none
  | some s => parsePyIntChars s.data

/-- `ChangesProcessor._write_startkey` applied to an arbitrary token:
the statefile afterwards contains `str(startkey)`. -/
def writeStartkeyTok (tok : Token) : String := tokenStr tok

/-! Round-trip lemmas for the decimal codec. -/

theorem natStrGo_append (fuel : Nat) :
    ∀ (n : Nat) (acc : List Char), natStrGo fuel n acc = natStrGo fuel n [] ++ acc := by
  induction fuel with
  | zero => intro n acc; rfl
  | succ fuel ih =>
    intro n acc
    by_cases h : n < 10
    · simp [natStrGo, h]
    · simp only [natStrGo, if_neg h]
      rw [ih (n / 10) (digitChar (n % 10) :: acc), ih (n / 10) [digitChar (n % 10)]]
      simp

theorem digitChar_isDigit (d : Nat) : (digitChar d).isDigit = true := by
  have h : d % 10 < 10 := Nat.mod_lt _ (by omega)
  unfold digitChar
  interval_cases h : d % 10 <;> simp_all

theorem digitVal_digitChar (d : Nat) : digitVal (digitChar d) = d % 10 := by
  have h : d % 10 < 10 := Nat.mod_lt _ (by omega)
  unfold digitChar digitVal
  interval_cases h : d % 10 <;> simp_all

theorem natStrGo_all_digits (fuel : Nat) :
    ∀ n, ∀ c ∈ natStrGo fuel n [], c.isDigit = true := by
  induction fuel with
  | zero => intro n c hc; simp [natStrGo] at hc
  | succ fuel ih =>
    intro n c hc
    by_cases h : n < 10
    · simp [natStrGo, h] at hc
      subst hc; exact digitChar_isDigit _
    · simp only [natStrGo, if_neg h] at hc
      rw [natStrGo_append] at hc
      rcases List.mem_append.1 hc with h1 | h1
      · exact ih (n / 10) c h1
      · simp at h1; subst h1; exact digitChar_isDigit _

theorem natStr_all_digits (n : Nat) : ∀ c ∈ natStr n, c.isDigit = true :=
  natStrGo_all_digits (n + 1) n

theorem natStrGo_ne_nil (fuel n : Nat) : natStrGo (fuel + 1) n [] ≠ [] := by
  by_cases h : n < 10
  · simp [natStrGo, h]
  · simp only [natStrGo, if_neg h]
    rw [natStrGo_append]
    simp

theorem natStr_ne_nil (n : Nat) : natStr n ≠ [] := natStrGo_ne_nil n n

theorem parseDigitsAux_append (l₁ l₂ : List Char) (a b : Nat)
    (h : parseDigitsAux a l₁ = some b) :
    parseDigitsAux a (l₁ ++ l₂) = parseDigitsAux b l₂ := by
  induction l₁ generalizing a with
  | nil => simp [parseDigitsAux] at h; subst h; simp
  | cons c cs ih =>
    simp only [parseDigitsAux, List.cons_append] at h ⊢
    by_cases hd : c.isDigit
    · rw [if_pos hd] at h ⊢
      exact ih _ h
    · rw [if_neg hd] at h
      exact absurd h (by simp)

theorem parseDigitsAux_natStrGo (fuel : Nat) :
    ∀ n a : Nat, n < fuel →
      parseDigitsAux a (natStrGo fuel n []) =
        some (a * 10 ^ (natStrGo fuel n []).length + n) := by
  induction fuel with
  | zero => intro n a h; omega
  | succ fuel ih =>
    intro n a hn
    by_cases h : n < 10
    · have hgo : natStrGo (fuel + 1) n [] = [digitChar (n % 10)] := by
        simp [natStrGo, h]
      rw [hgo]
      simp [parseDigitsAux, digitChar_isDigit, digitVal_digitChar]
      omega
    · have hgo : natStrGo (fuel + 1) n [] = natStrGo fuel (n / 10) [] ++ [digitChar (n % 10)] := by
        simp only [natStrGo, if_neg h]
        rw [natStrGo_append]
      have hlt : n / 10 < fuel := by
        have := Nat.div_lt_self (show 0 < n by omega) (show 1 < 10 by omega)
        omega
      rw [hgo, parseDigitsAux_append _ _ _ _ (ih (n / 10) a hlt)]
      have hone : parseDigitsAux (a * 10 ^ (natStrGo fuel (n / 10) []).length + n / 10)
          [digitChar (n % 10)] =
          some ((a * 10 ^ (natStrGo fuel (n / 10) []).length + n / 10) * 10 + n % 10) := by
        simp [parseDigitsAux, digitChar_isDigit, digitVal_digitChar]
      rw [hone]
      congr 1
      rw [List.length_append, List.length_singleton, pow_succ, ← mul_assoc]
      omega

theorem parseDigits_natStr (n : Nat) : parseDigits (natStr n) = some n := by
  rcases hl : natStr n with _ | ⟨c, cs⟩
  · exact absurd hl (natStr_ne_nil n)
  · have := parseDigitsAux_natStrGo (n + 1) n 0 (by omega)
    rw [parseDigits, ← hl]
    unfold natStr at this ⊢
    rw [this]
    simp

theorem dropWhile_of_no_space {p : Char → Bool} :
    ∀ {l : List Char}, (∀ c ∈ l, p c = false) → l.dropWhile p = l := by
  intro l h
  cases l with
  | nil => rfl
  | cons c cs =>
    rw [List.dropWhile_cons, h c (by simp)]
    simp

theorem stripChars_of_no_space {l : List Char}
    (h : ∀ c ∈ l, isPySpace c = false) : stripChars l = l := by
  unfold stripChars
  rw [dropWhile_of_no_space h,
    dropWhile_of_no_space (by intro c hc; exact h c (List.mem_reverse.1 hc)),
    List.reverse_reverse]

theorem digit_no_space {c : Char} (h : c.isDigit = true) : isPySpace c = false := by
  by_contra hb
  simp only [isPySpace, Bool.not_eq_false, Bool.or_eq_true, decide_eq_true_eq] at hb
  rcases hb with ((((hb | hb) | hb) | hb) | hb) | hb <;> (subst hb; revert h; decide)

theorem digit_ne_minus {c : Char} (h : c.isDigit = true) : c ≠ '-' := by
  intro he; subst he; revert h; decide

theorem digit_ne_plus {c : Char} (h : c.isDigit = true) : c ≠ '+' := by
  intro he; subst he; revert h; decide

theorem intStrChars_no_space (n : Int) : ∀ c ∈ intStrChars n, isPySpace c = false := by
  intro c hc
  unfold intStrChars at hc
  by_cases h : n < 0
  · rw [if_pos h] at hc
    rcases List.mem_cons.1 hc with h1 | h1
    · subst h1; decide
    · exact digit_no_space (natStr_all_digits _ _ h1)
  · rw [if_neg h] at hc
    exact digit_no_space (natStr_all_digits _ _ hc)

theorem parsePyIntChars_intStrChars (n : Int) :
    parsePyIntChars (intStrChars n) = some n := by
  unfold parsePyIntChars
  rw [stripChars_of_no_space (intStrChars_no_space n)]
  by_cases h : n < 0
  · unfold intStrChars
    rw [if_pos h]
    have e : parseSigned ('-' :: natStr n.natAbs)
        = (parseDigits (natStr n.natAbs)).map (fun m : Nat => -(m : Int)) := rfl
    rw [e, parseDigits_natStr]
    simp only [Option.map_some', Option.some.injEq]
    omega
  · unfold intStrChars
    rw [if_neg h]
    rcases hl : natStr n.natAbs with _ | ⟨c, cs⟩
    · exact absurd hl (natStr_ne_nil _)
    · have hd : c.isDigit = true := natStr_all_digits _ c (by rw [hl]; simp)
      have e : parseSigned (c :: cs)
          = (parseDigits (c :: cs)).map (fun m : Nat => (m : Int)) := by
        simp [parseSigned, digit_ne_minus hd, digit_ne_plus hd]
      rw [e, ← hl, parseDigits_natStr]
      simp only [Option.map_some', Option.some.injEq]
      omega

theorem readStartkey_strOfInt (n : Int) :
    readStartkey (some (strOfInt n)) = some n := by
  unfold readStartkey strOfInt
  exact parsePyIntChars_intStrChars n

/-! ## C2 — checkpoint round-trip -/

/-- C2, as stated: every token round-trips through the statefile, regardless
of its form.  `load` returns an `int` (or nothing), so we compare through the
`Token.int` embedding. -/
def claimC2 : Prop :=
  ∀ t : Token, (readStartkey (some (writeStartkeyTok t))).map Token.int = some t

/-- C2 counterexample: a string token `"x"` is persisted as `"x"`, which
`int()` cannot parse, so a subsequent load returns `None`, not the token. -/
theorem claim_C2_counterexample :
    ¬ ((readStartkey (some (writeStartkeyTok (Token.str "x")))).map Token.int
        = some (Token.str "x")) := by
  decide

/-- C2 (amended): only integer-valued sequence tokens round-trip through the
statefile: after `save` of the integer token `n`, `load` returns `n`.  Tokens
whose text does not parse as an integer (e.g. clustered-CouchDB string
sequences) come back as `None`. -/
theorem claim_C2 (n : Int) :
    readStartkey (some (writeStartkeyTok (Token.int n))) = some n := by
  unfold writeStartkeyTok tokenStr
  exact readStartkey_strOfInt n

/-! ## C3 — checkpoint save is not atomic

`_write_startkey` is `open(statefile, 'wb').write(str(startkey))`: opening
with mode `'wb'` truncates the file to empty, and the data is then written
sequentially.  A crash between the truncation and the completion of the write
leaves the file holding a proper prefix of the new contents (possibly the
empty string).  The observable statefile contents during a save are therefore
the previous contents, or any prefix of `str(token)`. -/

/-- All statefile contents observable by a load that races or follows a crash
of `_write_startkey`: the pre-save contents, then (after the `'wb'` truncate)
every prefix of the newly written text. -/
def writeStartkeyCrashStates (prev : String) (tok : Token) : List String :=
  prev :: ((tokenStr tok).data.inits.map String.mk)

/-- C3 counterexample: saving token `42` over previous contents `"7"` can be
observed in the state `""` (just after the truncate), which is neither the
previous checkpoint contents nor the complete new token. -/
theorem claim_C3_counterexample :
    ¬ (∀ s ∈ writeStartkeyCrashStates "7" (Token.int 42),
        s = "7" ∨ s = tokenStr (Token.int 42)) := by
  intro h
  have h2 := h "" (by decide)
  revert h2
  decide

/-- C3 (amended): the save is a plain truncate-then-write, not an atomic
overwrite.  A load that follows a crashed save observes either the previous
contents or some (possibly empty, possibly proper) prefix of the new token's
text; a completed save is observable as the full token text. -/
theorem claim_C3 (prev : String) (tok : Token) :
    (∀ s ∈ writeStartkeyCrashStates prev tok,
        s = prev ∨ ∃ rest, s.data ++ rest = (tokenStr tok).data)
    ∧ tokenStr tok ∈ writeStartkeyCrashStates prev tok := by
  constructor
  · intro s hs
    simp only [writeStartkeyCrashStates, List.mem_cons, List.mem_map] at hs
    rcases hs with hs | ⟨l, hl, hsl⟩
    · exact Or.inl hs
    · right
      obtain ⟨rest, hrest⟩ := (List.mem_inits _ _).1 hl
      subst hsl
      exact ⟨rest, hrest⟩
  · exact List.mem_cons_of_mem _
      (List.mem_map.2 ⟨(tokenStr tok).data, (List.mem_inits _ _).2 ⟨[], by simp⟩, rfl⟩)

/-- C3 witness: the amended statement instantiated at `prev = "7"`,
token `42`. -/
theorem claim_C3_witness :
    (∀ s ∈ writeStartkeyCrashStates "7" (Token.int 42),
        s = "7" ∨ ∃ rest, s.data ++ rest = (tokenStr (Token.int 42)).data)
    ∧ tokenStr (Token.int 42) ∈ writeStartkeyCrashStates "7" (Token.int 42) :=
  claim_C3 "7" (Token.int 42)

/-! ## Reservation manager (`reservation.py`)

The CouchDB database is modelled as an association list from document id to
document.  A reservation document has the store-assigned revision and the
optional `lease` field.  `db.create` fails with `Conflict` when the id
exists; `db.update([doc])` is couchdb-python's bulk update, which applies a
doc whose revision matches and reports (but does not raise) conflicts;
`db.delete(doc)` raises on a missing id or a revision mismatch; `db.get`
returns `None` for a missing id.  The caller's protected section (the body
of the `with` block) is a state transformer returning the mutated database
and an optional escaping exception. -/

/-- A reservation document: store revision plus the optional lease marker. -/
structure RDoc where
  rev : Nat
  lease : Option String
deriving DecidableEq

/-- Errors surfaced by the store and the reservation manager.  `user n` stands
for an arbitrary exception raised inside a caller's protected section. -/
inductive RErr where
  | conflict
  | notFound
  | alreadyExists (id : String)
  | user (n : Nat)
deriving DecidableEq

/-- First document stored under a key. -/
def lookupKey (id : String) : List (String × RDoc) → Option RDoc
  | [] => none
  | p :: ps => if p.1 = id then some p.2 else lookupKey id ps

/-- Remove the documents stored under a key. -/
def removeKey (id : String) : List (String × RDoc) → List (String × RDoc)
  | [] => []
  | p :: ps => if p.1 = id then removeKey id ps else p :: removeKey id ps

/-- Bulk-update step: a document under this key whose revision matches is
replaced by the new contents with a bumped revision; anything else is left
alone (couchdb-python `update` reports per-document conflicts without
raising). -/
def updateKey (id : String) (doc : RDoc) : List (String × RDoc) → List (String × RDoc)
  | [] => []
  | p :: ps =>
    (if p.1 = id ∧ p.2.rev = doc.rev then (id, RDoc.mk (doc.rev + 1) doc.lease) else p)
      :: updateKey id doc ps

/-- The CouchDB database state. -/
structure RDb where
  docs : List (String × RDoc)
deriving DecidableEq

/-- `db.get(id)`: `None` when missing. -/
def RDb.get (db : RDb) (id : String) : Option RDoc := lookupKey id db.docs

/-- `db.create(doc)`: atomic create-if-absent, `Conflict` when the id
exists. -/
def RDb.create (db : RDb) (id : String) (doc : RDoc) : Except RErr RDb :=
  match db.get id with
  | some _ => .error .conflict
  | none => .ok ⟨db.docs ++ [(id, doc)]⟩

/-- `db.update([doc])`: bulk update, silent about conflicts. -/
def RDb.bulkUpdate (db : RDb) (id : String) (doc : RDoc) : RDb :=
  ⟨updateKey id doc db.docs⟩

/-- `db.delete(doc)`: raises `NotFound` for a missing id and `Conflict` for a
revision mismatch. -/
def RDb.delete (db : RDb) (id : String) (rev : Nat) : Except RErr RDb :=
  match db.get id with
  | none => .error .notFound
  | some d => if d.rev = rev then .ok ⟨removeKey id db.docs⟩ else .error .conflict

/-- `ReservationManager._add_prefix`. -/
def addPfx (pre : Option String) (id : String) : String :=
  match pre with
  | none => id
  | some p => p ++ id

/-- `ReservationManager._remove_prefix`: Python's `id[len(self.prefix):]`,
an unconditional drop of `len(prefix)` characters. -/
def removePfx (pre : Option String) (id : String) : String :=
  match pre with
  | none => id
  | some p => String.mk (id.data.drop p.length)

/-- `ReservationManager.reserve`: create `prefix+id` with a fresh lease
(`now` stands for `datetime.utcnow().isoformat()`), translate the store's
conflict into `AlreadyExists`, and return the stored document re-fetched by
id. -/
def reserve (pre : Option String) (db : RDb) (id : String) (now : String) :
    Except RErr (RDb × String × RDoc) :=
  match RDb.create db (addPfx pre id) ⟨1, some now⟩ with
  | .error _ => .error (.alreadyExists id)
  | .ok db' =>
    match db'.get (addPfx pre id) with
    | some d => .ok (db', addPfx pre id, d)
    | none => .error .notFound

/-- `ReservationManager.release`: fetch then delete the reservation document;
`db.get` returning `None` makes the subsequent delete fail. -/
def release (pre : Option String) (db : RDb) (id : String) : Except RErr RDb :=
  match RDb.get db (addPfx pre id) with
  | none => .error .notFound
  | some d => RDb.delete db (addPfx pre id) d.rev

/-- `ReservationManager.reservation`: scoped acquisition.  Reserve, run the
body; on normal completion delete the `lease` field and bulk-update the
document; on an escaping error try to delete the reservation document
(failures of that delete are logged and swallowed) and re-raise the original
error. -/
def reservation (pre : Option String) (db : RDb) (id : String) (now : String)
    (body : RDb → RDb × Option RErr) : RDb × Option RErr :=
  match reserve pre db id now with
  | .error e => (db, some e)
  | .ok (db₁, docid, rdoc) =>
    match body db₁ with
    | (db₂, none) => (db₂.bulkUpdate docid ⟨rdoc.rev, none⟩, none)
    | (db₂, some e) =>
      match RDb.delete db₂ docid rdoc.rev with
      | .ok db₃ => (db₃, some e)
      | .error _ => (db₂, some e)

/-- `ReservationManager.reservation_change`: same id runs the body bare;
otherwise the body *and the release of the old id* run inside the scoped
reservation of the new id. -/
def reservation_change (pre : Option String) (db : RDb) (newId oldId : String)
    (now : String) (body : RDb → RDb × Option RErr) : RDb × Option RErr :=
  if oldId = newId then body db
  else
    reservation pre db newId now (fun db₁ =>
      match body db₁ with
      | (db₂, some e) => (db₂, some e)
      | (db₂, none) =>
        match release pre db₂ oldId with
        | .ok db₃ => (db₃, none)
        | .error e => (db₂, some e))

/-- Key collation: lexicographic order on the character list. -/
def strLT (a b : String) : Bool := decide (a.data < b.data)

/-- Key collation, non-strict. -/
def strLE (a b : String) : Bool := !(strLT b a)

/-- Insert a key into an ascending list of keys. -/
def insortKey (k : String) : List String → List String
  | [] => [k]
  | x :: xs => if strLE k x then k :: x :: xs else x :: insortKey k xs

/-- Sort keys ascending, as the `_all_docs` view returns them. -/
def sortKeys (l : List String) : List String := l.foldr insortKey []

/-- Inclusive `startkey`/`endkey` range check of `_all_docs`. -/
def inRange (sk ek : Option String) (k : String) : Bool :=
  (match sk with | none => true | some s => strLE s k)
    && (match ek with | none => true | some e => strLE k e)

/-- `db.view('_all_docs', **range)`: the stored keys inside the range, in key
order. -/
def RDb.viewAllDocs (db : RDb) (sk ek : Option String) : List String :=
  sortKeys ((db.docs.map (fun p => p.1)).filter (inRange sk ek))

/-- `ReservationManager.reserved`: prefix the range bounds when present, list
`_all_docs`, and strip the prefix from every returned row key. -/
def reserved (pre : Option String) (db : RDb) (sk ek : Option String) : List String :=
  (RDb.viewAllDocs db (sk.map (addPfx pre)) (ek.map (addPfx pre))).map (removePfx pre)

/-! Association-list lemmas. -/

theorem lookupKey_append_fresh (l : List (String × RDoc)) (id : String) (d : RDoc)
    (h : lookupKey id l = none) : lookupKey id (l ++ [(id, d)]) = some d := by
  induction l with
  | nil => simp [lookupKey]
  | cons p ps ih =>
    by_cases hp : p.1 = id
    · rw [lookupKey, if_pos hp] at h
      exact absurd h (by simp)
    · rw [lookupKey, if_neg hp] at h
      rw [List.cons_append, lookupKey, if_neg hp]
      exact ih h

theorem lookupKey_removeKey_self (l : List (String × RDoc)) (id : String) :
    lookupKey id (removeKey id l) = none := by
  induction l with
  | nil => rfl
  | cons p ps ih =>
    by_cases hp : p.1 = id
    · simp only [removeKey, if_pos hp]
      exact ih
    · simp only [removeKey, if_neg hp, lookupKey, if_neg hp]
      exact ih

theorem lookupKey_updateKey_match (l : List (String × RDoc)) (id : String)
    (d doc : RDoc) (h : lookupKey id l = some d) (hrev : d.rev = doc.rev) :
    lookupKey id (updateKey id doc l) = some ⟨doc.rev + 1, doc.lease⟩ := by
  induction l with
  | nil => simp [lookupKey] at h
  | cons p ps ih =>
    by_cases hp : p.1 = id
    · simp only [lookupKey, if_pos hp] at h
      have hcond : p.1 = id ∧ p.2.rev = doc.rev := by
        refine ⟨hp, ?_⟩
        rw [show p.2 = d from Option.some.inj h, hrev]
      simp only [updateKey, if_pos hcond, lookupKey]
      simp
    · simp only [lookupKey, if_neg hp] at h
      have hcond : ¬(p.1 = id ∧ p.2.rev = doc.rev) := fun hc => hp hc.1
      simp only [updateKey, if_neg hcond, lookupKey, if_neg hp]
      exact ih h

/-! Reduction helpers for the scoped reservation. -/

theorem reserve_free (pre : Option String) (db : RDb) (id now : String)
    (hfree : db.get (addPfx pre id) = none) :
    reserve pre db id now
      = .ok (⟨db.docs ++ [(addPfx pre id, ⟨1, some now⟩)]⟩, addPfx pre id,
          ⟨1, some now⟩) := by
  unfold reserve RDb.create
  rw [hfree]
  have : RDb.get ⟨db.docs ++ [(addPfx pre id, ⟨1, some now⟩)]⟩ (addPfx pre id)
      = some ⟨1, some now⟩ :=
    lookupKey_append_fresh db.docs _ _ hfree
  simp only [this]

theorem reserve_taken (pre : Option String) (db : RDb) (id now : String) (d : RDoc)
    (htaken : db.get (addPfx pre id) = some d) :
    reserve pre db id now = .error (.alreadyExists id) := by
  unfold reserve RDb.create
  rw [htaken]

theorem reservation_ok (pre : Option String) (db : RDb) (id now : String)
    (body : RDb → RDb × Option RErr) (db₂ : RDb)
    (hfree : db.get (addPfx pre id) = none)
    (hb : body ⟨db.docs ++ [(addPfx pre id, ⟨1, some now⟩)]⟩ = (db₂, none)) :
    reservation pre db id now body
      = (db₂.bulkUpdate (addPfx pre id) ⟨1, none⟩, none) := by
  unfold reservation
  rw [reserve_free pre db id now hfree]
  simp only [hb]

theorem reservation_err (pre : Option String) (db : RDb) (id now : String)
    (body : RDb → RDb × Option RErr) (db₂ : RDb) (e : RErr)
    (hfree : db.get (addPfx pre id) = none)
    (hb : body ⟨db.docs ++ [(addPfx pre id, ⟨1, some now⟩)]⟩ = (db₂, some e)) :
    reservation pre db id now body
      = (match RDb.delete db₂ (addPfx pre id) 1 with
         | .ok db₃ => db₃
         | .error _ => db₂, some e) := by
  unfold reservation
  rw [reserve_free pre db id now hfree]
  simp only [hb]
  cases RDb.delete db₂ (addPfx pre id) 1 <;> rfl

/-! ## C7 — scoped reservation: commit, rollback, suppressed rollback failure -/

/-- C7: for a free id, `reservation(id)` reserves it and runs the body on the
database extended with the reservation document (revision 1, lease set).
On normal completion it clears the lease via a bulk update, leaving the
document in place with revision 2 and no lease.  On an escaping error the
original error is always what the caller observes; the reservation document
is deleted when the rollback delete can succeed (document present at the
created revision), and when the rollback delete fails (document gone or at
another revision) the failure is suppressed and the database is left as the
body produced it. -/
theorem claim_C7 (pre : Option String) (db : RDb) (id now : String)
    (body : RDb → RDb × Option RErr)
    (hfree : db.get (addPfx pre id) = none) :
    (∀ db₂, body ⟨db.docs ++ [(addPfx pre id, ⟨1, some now⟩)]⟩ = (db₂, none) →
        reservation pre db id now body
          = (db₂.bulkUpdate (addPfx pre id) ⟨1, none⟩, none)
        ∧ (db₂.get (addPfx pre id) = some ⟨1, some now⟩ →
            (reservation pre db id now body).1.get (addPfx pre id) = some ⟨2, none⟩))
    ∧ (∀ db₂ e, body ⟨db.docs ++ [(addPfx pre id, ⟨1, some now⟩)]⟩ = (db₂, some e) →
        (reservation pre db id now body).2 = some e
        ∧ (∀ d₂, db₂.get (addPfx pre id) = some d₂ → d₂.rev = 1 →
            (reservation pre db id now body).1.get (addPfx pre id) = none)
        ∧ (db₂.get (addPfx pre id) = none →
            (reservation pre db id now body).1 = db₂)
        ∧ (∀ d₂, db₂.get (addPfx pre id) = some d₂ → d₂.rev ≠ 1 →
            (reservation pre db id now body).1 = db₂)) := by
  constructor
  · intro db₂ hb
    have he := reservation_ok pre db id now body db₂ hfree hb
    refine ⟨he, fun hdoc => ?_⟩
    rw [he]
    exact lookupKey_updateKey_match db₂.docs _ _ _ hdoc rfl
  · intro db₂ e hb
    have he := reservation_err pre db id now body db₂ e hfree hb
    refine ⟨by rw [he], fun d₂ hdoc hrev => ?_, fun hdoc => ?_, fun d₂ hdoc hrev => ?_⟩
    · have hdel : RDb.delete db₂ (addPfx pre id) 1 = .ok ⟨removeKey (addPfx pre id) db₂.docs⟩ := by
        unfold RDb.delete
        simp only [hdoc, hrev, if_pos]
      rw [he, hdel]
      exact lookupKey_removeKey_self db₂.docs _
    · have hdel : RDb.delete db₂ (addPfx pre id) 1 = .error .notFound := by
        unfold RDb.delete
        simp only [hdoc]
      rw [he, hdel]
    · have hdel : RDb.delete db₂ (addPfx pre id) 1 = .error .conflict := by
        unfold RDb.delete
        simp only [hdoc, if_neg hrev]
      rw [he, hdel]

/-- C7 witness: a body that stores an unrelated document and succeeds, and a
body that fails with error `user 3`, both over the empty store. -/
theorem claim_C7_witness :
    (RDb.get ⟨[]⟩ (addPfx none "u/foo") = none)
    ∧ (reservation none ⟨[]⟩ "u/foo" "T" (fun d => (d, none))
        = ((RDb.mk [("u/foo", ⟨1, some "T"⟩)]).bulkUpdate (addPfx none "u/foo") ⟨1, none⟩, none)
      ∧ (RDb.get ⟨[("u/foo", ⟨1, some "T"⟩)]⟩ (addPfx none "u/foo") = some ⟨1, some "T"⟩ →
          (reservation none ⟨[]⟩ "u/foo" "T" (fun d => (d, none))).1.get (addPfx none "u/foo")
            = some ⟨2, none⟩))
    ∧ ((reservation none ⟨[]⟩ "u/foo" "T" (fun d => (d, some (.user 3)))).2 = some (.user 3)) := by
  refine ⟨rfl, ?_, ?_⟩
  · exact (claim_C7 none ⟨[]⟩ "u/foo" "T" (fun d => (d, none)) rfl).1
      ⟨[("u/foo", ⟨1, some "T"⟩)]⟩ rfl
  · exact ((claim_C7 none ⟨[]⟩ "u/foo" "T" (fun d => (d, some (.user 3))) rfl).2
      ⟨[("u/foo", ⟨1, some "T"⟩)]⟩ (.user 3) rfl).1

/-! ## C8 — reserve / double reserve / release / re-reserve -/

/-- C8: `reserve(id)` is an atomic create-if-absent of `prefix+id`.  With a
document already present it raises `AlreadyExists`; on a free id it succeeds
and the created reservation carries the lease marker; a second reserve of the
same id then raises; after `release(id)` a reserve of that id succeeds
again. -/
theorem claim_C8 (pre : Option String) (db : RDb) (id now : String) :
    (∀ d, db.get (addPfx pre id) = some d →
        reserve pre db id now = .error (.alreadyExists id))
    ∧ (db.get (addPfx pre id) = none →
        (reserve pre db id now
          = .ok (⟨db.docs ++ [(addPfx pre id, ⟨1, some now⟩)]⟩, addPfx pre id,
              ⟨1, some now⟩))
        ∧ (∀ now₂, reserve pre ⟨db.docs ++ [(addPfx pre id, ⟨1, some now⟩)]⟩ id now₂
            = .error (.alreadyExists id))
        ∧ (∃ db₂ : RDb,
            (release pre ⟨db.docs ++ [(addPfx pre id, ⟨1, some now⟩)]⟩ id = .ok db₂)
            ∧ (∀ now₃, reserve pre db₂ id now₃
                = .ok (⟨db₂.docs ++ [(addPfx pre id, ⟨1, some now₃⟩)]⟩, addPfx pre id,
                    ⟨1, some now₃⟩)))) := by
  constructor
  · intro d hd
    exact reserve_taken pre db id now d hd
  · intro hfree
    have hget : RDb.get ⟨db.docs ++ [(addPfx pre id, ⟨1, some now⟩)]⟩ (addPfx pre id)
        = some ⟨1, some now⟩ :=
      lookupKey_append_fresh db.docs _ _ hfree
    refine ⟨reserve_free pre db id now hfree, fun now₂ => reserve_taken _ _ _ _ _ hget, ?_⟩
    refine ⟨⟨removeKey (addPfx pre id) (db.docs ++ [(addPfx pre id, ⟨1, some now⟩)])⟩, ?_, ?_⟩
    · simp [release, RDb.delete, hget]
    · intro now₃
      exact reserve_free pre _ id now₃ (lookupKey_removeKey_self _ _)

/-- C8 witness: the concrete `u/foo` scenario from the spec over the empty
store. -/
theorem claim_C8_witness :
    (RDb.get ⟨[]⟩ (addPfx none "u/foo") = none)
    ∧ ((reserve none ⟨[]⟩ "u/foo" "T"
        = .ok (⟨(RDb.mk []).docs ++ [(addPfx none "u/foo", ⟨1, some "T"⟩)]⟩,
            addPfx none "u/foo", ⟨1, some "T"⟩))
      ∧ (∀ now₂, reserve none ⟨(RDb.mk []).docs ++ [(addPfx none "u/foo", ⟨1, some "T"⟩)]⟩
            "u/foo" now₂ = .error (.alreadyExists "u/foo"))
      ∧ (∃ db₂ : RDb,
          (release none ⟨(RDb.mk []).docs ++ [(addPfx none "u/foo", ⟨1, some "T"⟩)]⟩
            "u/foo" = .ok db₂)
          ∧ (∀ now₃, reserve none db₂ "u/foo" now₃
              = .ok (⟨db₂.docs ++ [(addPfx none "u/foo", ⟨1, some now₃⟩)]⟩,
                  addPfx none "u/foo", ⟨1, some now₃⟩)))) :=
  ⟨rfl, (claim_C8 none ⟨[]⟩ "u/foo" "T").2 rfl⟩

/-! ## C1 — reservation_change: what happens when releasing the old id fails -/

/-- C1, as stated, claims that after a failed `release(oldId)` the new id's
reservation is already confirmed and its document remains.  In the code,
`release(old_id)` runs *inside* the scoped reservation of `new_id`, so its
failure triggers the rollback: the new reservation document is deleted.
Concretely: over an empty store (so `release "o"` fails with `NotFound`),
the release error propagates but `newId`'s document is gone — nothing
"remains in the store with the lease cleared".  -/
theorem claim_C1_counterexample :
    (reservation_change none ⟨[]⟩ "n" "o" "T" (fun d => (d, none))).2
        = some RErr.notFound
    ∧ (reservation_change none ⟨[]⟩ "n" "o" "T" (fun d => (d, none))).1.get "n"
        = none := by
  constructor <;> rfl

/-- C1 (amended): with `newId ≠ oldId` and `newId` free, `release(oldId)` runs
after the caller's section but *before* `newId`'s reservation is confirmed —
inside the protected scope.  If the body and the release both succeed, the
release happens first and only then is the lease cleared (the commit is a
bulk update applied to the post-release database).  If `release(oldId)`
fails, the release error propagates to the caller and `newId`'s reservation
is rolled back — its document is deleted, not confirmed. -/
theorem claim_C1 (pre : Option String) (db : RDb) (newId oldId now : String)
    (body : RDb → RDb × Option RErr)
    (hne : oldId ≠ newId)
    (hfree : db.get (addPfx pre newId) = none) :
    (∀ db₂ db₃, body ⟨db.docs ++ [(addPfx pre newId, ⟨1, some now⟩)]⟩ = (db₂, none) →
        release pre db₂ oldId = .ok db₃ →
        reservation_change pre db newId oldId now body
          = (db₃.bulkUpdate (addPfx pre newId) ⟨1, none⟩, none)
        ∧ (db₃.get (addPfx pre newId) = some ⟨1, some now⟩ →
            (reservation_change pre db newId oldId now body).1.get (addPfx pre newId)
              = some ⟨2, none⟩))
    ∧ (∀ db₂ e, body ⟨db.docs ++ [(addPfx pre newId, ⟨1, some now⟩)]⟩ = (db₂, none) →
        release pre db₂ oldId = .error e →
        (reservation_change pre db newId oldId now body).2 = some e
        ∧ (db₂.get (addPfx pre newId) = some ⟨1, some now⟩ →
            (reservation_change pre db newId oldId now body).1.get (addPfx pre newId)
              = none)) := by
  have hif : reservation_change pre db newId oldId now body
      = reservation pre db newId now (fun db₁ =>
          match body db₁ with
          | (db₂, some e) => (db₂, some e)
          | (db₂, none) =>
            match release pre db₂ oldId with
            | .ok db₃ => (db₃, none)
            | .error e => (db₂, some e)) := by
    unfold reservation_change
    rw [if_neg hne]
  constructor
  · intro db₂ db₃ hb hrel
    have hwrap : (fun db₁ =>
        match body db₁ with
        | (db₂, some e) => (db₂, some e)
        | (db₂, none) =>
          match release pre db₂ oldId with
          | .ok db₃ => (db₃, none)
          | .error e => (db₂, some e))
        (⟨db.docs ++ [(addPfx pre newId, ⟨1, some now⟩)]⟩ : RDb) = (db₃, none) := by
      simp only [hb, hrel]
    have he := reservation_ok pre db newId now
      (fun db₁ =>
        match body db₁ with
        | (db₂, some e) => (db₂, some e)
        | (db₂, none) =>
          match release pre db₂ oldId with
          | .ok db₃ => (db₃, none)
          | .error e => (db₂, some e)) db₃ hfree hwrap
    rw [hif]
    refine ⟨he, fun hdoc => ?_⟩
    rw [he]
    exact lookupKey_updateKey_match db₃.docs _ _ _ hdoc rfl
  · intro db₂ e hb hrel
    have hwrap : (fun db₁ =>
        match body db₁ with
        | (db₂, some e) => (db₂, some e)
        | (db₂, none) =>
          match release pre db₂ oldId with
          | .ok db₃ => (db₃, none)
          | .error e => (db₂, some e))
        (⟨db.docs ++ [(addPfx pre newId, ⟨1, some now⟩)]⟩ : RDb) = (db₂, some e) := by
      simp only [hb, hrel]
    have he := reservation_err pre db newId now
      (fun db₁ =>
        match body db₁ with
        | (db₂, some e) => (db₂, some e)
        | (db₂, none) =>
          match release pre db₂ oldId with
          | .ok db₃ => (db₃, none)
          | .error e => (db₂, some e)) db₂ e hfree hwrap
    rw [hif]
    refine ⟨by rw [he], fun hdoc => ?_⟩
    have hdel : RDb.delete db₂ (addPfx pre newId) 1
        = .ok ⟨removeKey (addPfx pre newId) db₂.docs⟩ := by
      simp [RDb.delete, hdoc]
    rw [he, hdel]
    exact lookupKey_removeKey_self db₂.docs _

/-- C1 witness: old reservation held, body succeeds; releasing the old id
succeeds and the run confirms the new id, with the old id gone. -/
theorem claim_C1_witness :
    ("o" ≠ "n")
    ∧ (RDb.get ⟨[("o", ⟨1, none⟩)]⟩ (addPfx none "n") = none)
    ∧ (reservation_change none ⟨[("o", ⟨1, none⟩)]⟩ "n" "o" "T" (fun d => (d, none))
        = ((RDb.mk [("n", ⟨1, some "T"⟩)]).bulkUpdate (addPfx none "n") ⟨1, none⟩, none)
      ∧ (RDb.get ⟨[("n", ⟨1, some "T"⟩)]⟩ (addPfx none "n") = some ⟨1, some "T"⟩ →
          (reservation_change none ⟨[("o", ⟨1, none⟩)]⟩ "n" "o" "T"
              (fun d => (d, none))).1.get (addPfx none "n") = some ⟨2, none⟩)) := by
  refine ⟨by decide, rfl, ?_⟩
  exact (claim_C1 none ⟨[("o", ⟨1, none⟩)]⟩ "n" "o" "T" (fun d => (d, none))
      (by decide) rfl).1 ⟨[("o", ⟨1, none⟩), ("n", ⟨1, some "T"⟩)]⟩
      ⟨[("n", ⟨1, some "T"⟩)]⟩ rfl rfl

/-! ## C10 — prefix stripping is a blind character drop -/

/-- C10: with a prefix configured, `reserved()` maps Python's
`id[len(prefix):]` over every listed row key: exactly `len(prefix)` leading
characters are dropped, with no check that the key actually starts with the
prefix, so a listed key that does not carry the prefix comes back truncated
rather than unchanged. -/
theorem claim_C10 (p : String) (db : RDb) :
    reserved (some p) db none none
      = (RDb.viewAllDocs db none none).map (removePfx (some p))
    ∧ (∀ k : String, removePfx (some p) k = String.mk (k.data.drop p.length))
    ∧ (∀ k : String, 0 < p.length → 0 < k.data.length → removePfx (some p) k ≠ k) := by
  refine ⟨rfl, fun k => rfl, fun k hp hk => ?_⟩
  intro heq
  have hdata : k.data.drop p.length = k.data := congrArg String.data heq
  have hlen : (k.data.drop p.length).length = k.data.length := by rw [hdata]
  rw [List.length_drop] at hlen
  have hp' : 0 < k.data.length - p.length + p.length - p.length := by omega
  omega

/-- C10 witness: prefix `"wibble/"` over the key `"d/foo"` (as listed by an
unrestricted `reserved()`), which does not start with the prefix, comes back
changed. -/
theorem claim_C10_witness :
    (0 < "wibble/".length) ∧ (0 < "d/foo".data.length)
    ∧ removePfx (some "wibble/") "d/foo" ≠ "d/foo" :=
  ⟨by decide, by decide,
    (claim_C10 "wibble/" ⟨[]⟩).2.2 "d/foo" (by decide) (by decide)⟩

/-! ## Paginated view iterator (`iterview.py`)

A view row has a key and a document id.  The underlying collection is a
key-ordered list of rows; a page request with a compound
`startkey`/`startkey_docid` cursor returns the rows at or after the cursor
(range queries are start-inclusive), limited to the requested count. -/

/-- A view row. -/
structure VRow where
  key : String
  id : String
deriving DecidableEq

/-- Compound cursor comparison: the row is at or after `(startkey,
startkey_docid)` in (key, id) order. -/
def cursorLE (c : String × String) (r : VRow) : Bool :=
  strLT c.1 r.key || (decide (c.1 = r.key) && strLE c.2 r.id)

/-- One `db.view` page request: rows at or after the cursor, up to `lim`. -/
def viewFetch (rows : List VRow) (cursor : Option (String × String)) (lim : Nat) :
    List VRow :=
  (match cursor with
   | none => rows
   | some c => rows.filter (cursorLE c)).take lim

/-- Python `limit or batch` (`0` and `None` are falsy). -/
def pyOr (limit : Option Int) (batch : Int) : Int :=
  match limit with
  | none => batch
  | some l => if l = 0 then batch else l

/-- The `while True` loop of `iterview`, fuelled.  The result is the trace of
pages: for every page request, the `limit` passed to `db.view` and the rows
yielded from that page.  Per iteration: fetch `loop_limit+1` rows, yield the
first `loop_limit`, decrement the caller's limit by `min(len(rows), batch)`,
stop when the page holds at most `batch` rows or the limit is exhausted,
else continue from the lookahead row's compound cursor. -/
def iterviewAux (rows : List VRow) (batch : Int) :
    Nat → Option Int → Option (String × String) → List (Int × List VRow)
  | 0, _, _ => []
  | fuel + 1, limit, cursor =>
    let loopLimit := min (pyOr limit batch) batch
    let page := viewFetch rows cursor (loopLimit + 1).toNat
    let yielded := page.take loopLimit.toNat
    let limit' := match limit with
      | none => none
      | some l => some (l - min (page.length : Int) batch)
    if (page.length : Int) ≤ batch ∨ limit' = some 0 then
      [(loopLimit + 1, yielded)]
    else
      match page.getLast? with
      | none => [(loopLimit + 1, yielded)]
      | some lastRow =>
        (loopLimit + 1, yielded)
          :: iterviewAux rows batch fuel limit' (some (lastRow.key, lastRow.id))

/-- `iterview(db, name, batch, **options)`: argument validation, then the
paging loop.  `cursor` is the caller's optional initial
`startkey`/`startkey_docid` pair from `options`. -/
def iterview (rows : List VRow) (batch : Int) (limit : Option Int)
    (cursor : Option (String × String)) (fuel : Nat) :
    Except String (List (Int × List VRow)) :=
  if batch ≤ 0 then .error "batch must be 1 or more"
  else
    match limit with
    | some l =>
      if l ≤ 0 then .error "limit must be 1 or more"
      else .ok (iterviewAux rows batch fuel limit cursor)
    | none => .ok (iterviewAux rows batch fuel limit cursor)

/-- Sample row with the id equal to the key. -/
def vr (k : String) : VRow := ⟨k, k⟩

/-- A fixed 5-row collection in key order. -/
def rows5 : List VRow := [vr "a", vr "b", vr "c", vr "d", vr "e"]

theorem iterviewAux_pages (rows : List VRow) (batch : Int) (hb : 1 ≤ batch) :
    ∀ (fuel : Nat) (limit : Option Int) (cursor : Option (String × String)),
      ∀ pr ∈ iterviewAux rows batch fuel limit cursor,
        pr.1 ≤ batch + 1 ∧ (pr.2.length : Int) ≤ batch
        ∧ (limit = none → pr.1 = batch + 1) := by
  intro fuel
  induction fuel with
  | zero => intro limit cursor pr hpr; simp [iterviewAux] at hpr
  | succ fuel ih =>
    intro limit cursor pr hpr
    simp only [iterviewAux] at hpr
    have hhead : ∀ hp : pr = (min (pyOr limit batch) batch + 1,
        (viewFetch rows cursor (min (pyOr limit batch) batch + 1).toNat).take
          (min (pyOr limit batch) batch).toNat),
        pr.1 ≤ batch + 1 ∧ (pr.2.length : Int) ≤ batch
        ∧ (limit = none → pr.1 = batch + 1) := by
      intro hp
      subst hp
      dsimp only
      have hll : min (pyOr limit batch) batch ≤ batch := min_le_right _ _
      have hlen : ((viewFetch rows cursor (min (pyOr limit batch) batch + 1).toNat).take
          (min (pyOr limit batch) batch).toNat).length
          ≤ (min (pyOr limit batch) batch).toNat := by
        rw [List.length_take]
        omega
      refine ⟨by omega, by omega, fun hnone => ?_⟩
      subst hnone
      simp only [pyOr]
      omega
    split at hpr
    · rw [List.mem_singleton] at hpr
      exact hhead hpr
    · split at hpr
      · rw [List.mem_singleton] at hpr
        exact hhead hpr
      · rw [List.mem_cons] at hpr
        rcases hpr with hpr | hpr
        · exact hhead hpr
        · have := ih _ _ pr hpr
          refine ⟨this.1, this.2.1, fun hnone => this.2.2 ?_⟩
          subst hnone
          rfl

/-- C9, as stated: every page request fetches `pageSize + 1` rows.  When the
caller passes a `limit` smaller than the page size, the loop requests only
`min(limit, batch) + 1` rows: with `batch = 5`, `limit = 2` the single page
request asks for 3 rows, not 6. -/
theorem claim_C9_counterexample :
    iterview rows5 5 (some 2) none 10 = .ok [(3, [vr "a", vr "b"])]
    ∧ (3 : Int) ≠ 5 + 1 := by
  constructor
  · rfl
  · decide

/-- C9 (amended): with no caller limit, every page request fetches exactly
`pageSize + 1` rows (the lookahead row) and yields at most `pageSize` rows;
with a caller limit, every page request fetches at most `pageSize + 1` rows
(namely `min(pageSize, remaining limit) + 1`) and yields at most `pageSize`
rows.  Over the fixed 5-row collection with `pageSize = 2` the iterator
yields exactly those 5 rows, in key order, using exactly 3 page fetches. -/
theorem claim_C9 :
    (∀ (rows : List VRow) (batch : Int) (cursor : Option (String × String))
        (fuel : Nat) (tr : List (Int × List VRow)), 1 ≤ batch →
        iterview rows batch none cursor fuel = .ok tr →
        ∀ pr ∈ tr, pr.1 = batch + 1 ∧ (pr.2.length : Int) ≤ batch)
    ∧ (∀ (rows : List VRow) (batch : Int) (limit : Option Int)
        (cursor : Option (String × String)) (fuel : Nat)
        (tr : List (Int × List VRow)), 1 ≤ batch →
        iterview rows batch limit cursor fuel = .ok tr →
        ∀ pr ∈ tr, pr.1 ≤ batch + 1 ∧ (pr.2.length : Int) ≤ batch)
    ∧ iterview rows5 2 none none 10
        = .ok [(3, [vr "a", vr "b"]), (3, [vr "c", vr "d"]), (3, [vr "e"])]
    ∧ ([(3, [vr "a", vr "b"]), (3, [vr "c", vr "d"]), (3, [vr "e"])].map
        (fun pr => pr.2)).flatten = rows5 := by
  refine ⟨?_, ?_, rfl, rfl⟩
  · intro rows batch cursor fuel tr hb hok
    unfold iterview at hok
    rw [if_neg (by omega : ¬ batch ≤ 0)] at hok
    have htr : tr = iterviewAux rows batch fuel none cursor := by
      exact (Except.ok.inj hok).symm
    subst htr
    intro pr hpr
    have h := iterviewAux_pages rows batch hb fuel none cursor pr hpr
    exact ⟨h.2.2 rfl, h.2.1⟩
  · intro rows batch limit cursor fuel tr hb hok
    unfold iterview at hok
    rw [if_neg (by omega : ¬ batch ≤ 0)] at hok
    rcases limit with _ | l
    · have htr : tr = iterviewAux rows batch fuel none cursor :=
        (Except.ok.inj hok).symm
      subst htr
      intro pr hpr
      have h := iterviewAux_pages rows batch hb fuel none cursor pr hpr
      exact ⟨h.1, h.2.1⟩
    · by_cases hl : l ≤ 0
      · simp [hl] at hok
      · simp only [if_neg hl] at hok
        have htr : tr = iterviewAux rows batch fuel (some l) cursor :=
          (Except.ok.inj hok).symm
        subst htr
        intro pr hpr
        have h := iterviewAux_pages rows batch hb fuel (some l) cursor pr hpr
        exact ⟨h.1, h.2.1⟩

/-- C9 witness: the general page-shape facts instantiated on the concrete
5-row run with `pageSize = 2` and no limit. -/
theorem claim_C9_witness :
    ((1 : Int) ≤ 2)
    ∧ (iterview rows5 2 none none 10
        = .ok [(3, [vr "a", vr "b"]), (3, [vr "c", vr "d"]), (3, [vr "e"])])
    ∧ (∀ pr ∈ [((3 : Int), [vr "a", vr "b"]), (3, [vr "c", vr "d"]), (3, [vr "e"])],
        pr.1 = 2 + 1 ∧ (pr.2.length : Int) ≤ 2) :=
  ⟨by decide, rfl,
    claim_C9.1 rows5 2 none 10
      [(3, [vr "a", vr "b"]), (3, [vr "c", vr "d"]), (3, [vr "e"])]
      (by decide) rfl⟩

/-! ## Change feed processor (`changes.py`)

The store is a finite change feed (the `_changes` sequence, with integer
sequence numbers as in classic CouchDB) together with the current documents,
looked up by the `_all_docs` bulk fetch.  Handler callbacks may fail with an
error of type `E`; `Except` error propagation models the uncaught Python
exception.  The checkpoint statefile is threaded as `Option String` (absent
or contents), read and written through the codec above. -/

/-- One `_changes` row: document id and sequence number. -/
structure ChangeRow where
  id : String
  seq : Int
deriving DecidableEq

/-- The CouchDB database as seen by `ChangesProcessor`: the full ordered
change feed and the current state of the documents (`none` = deleted or
missing, as `include_docs` reports). -/
structure ChStore where
  feed : List ChangeRow
  docs : String → Option String

/-- `_changes` without a limit (the continuous feed): all entries, or the
entries strictly after `since`. -/
def contChanges (st : ChStore) (since : Option Int) : List ChangeRow :=
  match since with
  | none => st.feed
  | some s => st.feed.filter (fun r => decide (s < r.seq))

/-- `_changes` with a `limit`: up to `lim` entries since the checkpoint. -/
def changesFetch (st : ChStore) (since : Option Int) (lim : Nat) : List ChangeRow :=
  (contChanges st since).take lim

variable {E : Type}

/-- The subclass-supplied callbacks `handle_update` / `handle_delete`. -/
structure Handlers (E : Type) where
  onUpdate : String → Except E Unit
  onDelete : String → Except E Unit

/-- Dispatch one `_all_docs` row: a missing/deleted document goes to
`handle_delete(row.key)`, anything else to `handle_update(row.doc)`. -/
def handleOne (st : ChStore) (cb : Handlers E) (i : String) : Except E Unit :=
  match st.docs i with
  | none => cb.onDelete i
  | some d => cb.onUpdate d

/-- `ChangesProcessor.handle_changes(ids)`: dispatch each id in order; the
first handler error aborts the loop and propagates. -/
def handleChanges (st : ChStore) (cb : Handlers E) : List String → Option E
  | [] => none
  | i :: is =>
    match handleOne st cb i with
    | .error e => some e
    | .ok _ => handleChanges st cb is

/-- Python truthiness of the startkey: `if startkey:` skips both `None` and
`0`. -/
def pySince : Option Int → Option Int
  | none => none
  | some s => if s = 0 then none else some s

/-- The `since` option actually in the options dict: `if startkey:
options['since'] = startkey` updates it, otherwise the previous value
stays. -/
def effSince (startkey sinceOpt : Option Int) : Option Int :=
  match startkey with
  | some s => if s = 0 then sinceOpt else some s
  | none => sinceOpt

/-- The outcome of a run: the escaped handler error (if any), the final
statefile, and the checkpoint values written, in order. -/
structure RunOut (E : Type) where
  err : Option E
  file : Option String
  writes : List Int
deriving DecidableEq

/-- The `while True` loop of `ChangesProcessor.run_once`, fuelled.
`startkey` is the in-memory variable, `sinceOpt` the `since` entry of the
persistent options dict, `file` the statefile. -/
def runOnceAux (st : ChStore) (cb : Handlers E) (bs : Nat) :
    Nat → Option Int → Option Int → Option String → RunOut E
  | 0, _, _, file => ⟨none, file, []⟩
  | fuel + 1, startkey, sinceOpt, file =>
    let since := effSince startkey sinceOpt
    let results := changesFetch st since bs
    match results.getLast? with
    | none => ⟨none, file, []⟩
    | some lastRow =>
      match handleChanges st cb (results.map (fun r => r.id)) with
      | some e => ⟨some e, file, []⟩
      | none =>
        let out := runOnceAux st cb bs fuel (some lastRow.seq) since
          (some (strOfInt lastRow.seq))
        ⟨out.err, out.file, lastRow.seq :: out.writes⟩

/-- `ChangesProcessor.run_once`: read the startkey from the statefile, then
loop. -/
def runOnce (st : ChStore) (cb : Handlers E) (bs fuel : Nat) (file : Option String) :
    RunOut E :=
  runOnceAux st cb bs fuel (readStartkey file) none file

/-- Modelled from the spec: the ONE_SHOT loop as the specification words it —
read the checkpoint; fetch up to `batch_size` entries since it; stop on an
empty page; dispatch null documents to `onDelete` and others to `onUpdate`;
only after the whole batch's handlers return successfully, persist the last
entry's sequence; repeat. -/
def specRunOnceAux (st : ChStore) (cb : Handlers E) (bs : Nat) :
    Nat → Option Int → Option String → RunOut E
  | 0, _, file => ⟨none, file, []⟩
  | fuel + 1, checkpoint, file =>
    let results := changesFetch st checkpoint bs
    match results.getLast? with
    | none => ⟨none, file, []⟩
    | some lastRow =>
      match handleChanges st cb (results.map (fun r => r.id)) with
      | some e => ⟨some e, file, []⟩
      | none =>
        let out := specRunOnceAux st cb bs fuel (some lastRow.seq)
          (some (strOfInt lastRow.seq))
        ⟨out.err, out.file, lastRow.seq :: out.writes⟩

/-- Modelled from the spec: a ONE_SHOT run starts from the loaded
checkpoint. -/
def specRunOnce (st : ChStore) (cb : Handlers E) (bs fuel : Nat)
    (file : Option String) : RunOut E :=
  specRunOnceAux st cb bs fuel (readStartkey file) file

/-! Helper lemmas for the change feed. -/

theorem mem_contChanges (st : ChStore) (since : Option Int) (r : ChangeRow)
    (hr : r ∈ contChanges st since) : r ∈ st.feed := by
  cases since with
  | none => exact hr
  | some s => exact List.mem_of_mem_filter hr

theorem mem_changesFetch (st : ChStore) (since : Option Int) (lim : Nat) (r : ChangeRow)
    (hr : r ∈ changesFetch st since lim) : r ∈ st.feed :=
  mem_contChanges st since r (List.take_subset _ _ hr)

theorem contChanges_lt (st : ChStore) (s : Int) (r : ChangeRow)
    (hr : r ∈ contChanges st (some s)) : s < r.seq := by
  unfold contChanges at hr
  have := (List.mem_filter.1 hr).2
  simpa using this

theorem lastMem {α : Type} {l : List α} {a : α} (hl : l.getLast? = some a) : a ∈ l := by
  obtain ⟨ys, rfl⟩ := List.getLast?_eq_some_iff.1 hl
  simp

theorem headMem {α : Type} {l : List α} {a : α} (hl : l.head? = some a) : a ∈ l := by
  cases l with
  | nil => simp at hl
  | cons x xs => simp at hl; subst hl; simp

theorem effSince_pySince (startkey sinceOpt : Option Int)
    (hz : (startkey = none ∨ startkey = some 0) → sinceOpt = none) :
    effSince startkey sinceOpt = pySince startkey := by
  cases startkey with
  | none => simp [effSince, pySince, hz (Or.inl rfl)]
  | some s =>
    by_cases h0 : s = 0
    · subst h0
      simp [effSince, pySince, hz (Or.inr rfl)]
    · simp [effSince, pySince, h0]

theorem contChanges_zero (st : ChStore) (hpos : ∀ r ∈ st.feed, 1 ≤ r.seq) :
    contChanges st (some 0) = contChanges st none := by
  unfold contChanges
  refine List.filter_eq_self.2 (fun r hr => ?_)
  have := hpos r hr
  simp
  omega

/-! ## C4 — ONE_SHOT follows the specified loop -/

/-- C4: with positive sequence numbers (as CouchDB assigns), a ONE_SHOT run
is extensionally the loop the spec describes, for every store state, batch
size, statefile contents, and handler behaviour: same escaped error, same
final statefile, same checkpoint writes.  The only code-vs-spec wrinkle is
Python truthiness (`if startkey:` drops a `0` checkpoint), which coincides
with "fetch since 0" because all sequences are at least 1. -/
theorem runOnceAux_eq_spec (st : ChStore) (cb : Handlers E) (bs : Nat)
    (hpos : ∀ r ∈ st.feed, 1 ≤ r.seq) :
    ∀ (fuel : Nat) (startkey sinceOpt : Option Int) (file : Option String),
      ((startkey = none ∨ startkey = some 0) → sinceOpt = none) →
      runOnceAux st cb bs fuel startkey sinceOpt file
        = specRunOnceAux st cb bs fuel startkey file := by
  intro fuel
  induction fuel with
  | zero => intros; rfl
  | succ fuel ih =>
    intro startkey sinceOpt file hz
    simp only [runOnceAux, specRunOnceAux]
    have hfetch : changesFetch st (effSince startkey sinceOpt) bs
        = changesFetch st startkey bs := by
      rw [effSince_pySince startkey sinceOpt hz]
      rcases startkey with _ | s
      · rfl
      · by_cases h0 : s = 0
        · subst h0
          unfold changesFetch
          rw [show pySince (some 0) = none from rfl, contChanges_zero st hpos]
        · rw [show pySince (some s) = some s from by simp [pySince, h0]]
    rw [hfetch]
    rcases hL : (changesFetch st startkey bs).getLast? with _ | lastRow
    · simp only [hL]
    · simp only [hL]
      rcases hH : handleChanges st cb ((changesFetch st startkey bs).map (fun r => r.id))
        with _ | e
      · simp only [hH]
        have hmem : lastRow ∈ st.feed :=
          mem_changesFetch st startkey bs lastRow (lastMem hL)
        have h1 : (1 : Int) ≤ lastRow.seq := hpos _ hmem
        rw [ih (some lastRow.seq) (effSince startkey sinceOpt) (some (strOfInt lastRow.seq))
          (by rintro (hc | hc) <;> (exfalso; try exact Option.noConfusion hc)
              · have := Option.some.inj hc; omega)]
      · simp only [hH]

/-- C4 as a statement about `run_once` itself. -/
theorem claim_C4 (st : ChStore) (cb : Handlers E) (bs fuel : Nat) (file : Option String)
    (hpos : ∀ r ∈ st.feed, 1 ≤ r.seq) :
    runOnce st cb bs fuel file = specRunOnce st cb bs fuel file :=
  runOnceAux_eq_spec st cb bs hpos fuel (readStartkey file) none file (fun _ => rfl)

/-- C4 witness: a concrete three-entry feed, batch size 2, handlers that
always succeed; `run_once` and the spec's loop coincide. -/
theorem claim_C4_witness :
    (∀ r ∈ (ChStore.mk [⟨"a", 1⟩, ⟨"b", 2⟩, ⟨"c", 3⟩]
        (fun i => if i = "a" then some "da" else none)).feed, 1 ≤ r.seq)
    ∧ runOnce (ChStore.mk [⟨"a", 1⟩, ⟨"b", 2⟩, ⟨"c", 3⟩]
          (fun i => if i = "a" then some "da" else none))
        (Handlers.mk (fun _ => Except.ok ()) (fun _ => Except.ok ()) : Handlers Nat)
        2 5 none
      = specRunOnce (ChStore.mk [⟨"a", 1⟩, ⟨"b", 2⟩, ⟨"c", 3⟩]
          (fun i => if i = "a" then some "da" else none))
        (Handlers.mk (fun _ => Except.ok ()) (fun _ => Except.ok ()))
        2 5 none :=
  ⟨by decide,
    claim_C4 (ChStore.mk [⟨"a", 1⟩, ⟨"b", 2⟩, ⟨"c", 3⟩]
        (fun i => if i = "a" then some "da" else none))
      (Handlers.mk (fun _ => Except.ok ()) (fun _ => Except.ok ()))
      2 5 none (by decide)⟩

/-! ## Checkpoint-write invariants shared by C5 and C6 -/

/-- A checkpoint value is *good* when it is the sequence of the last entry of
a batch drawn from the feed whose handlers all completed without error. -/
def goodWrite (st : ChStore) (cb : Handlers E) (w : Int) : Prop :=
  ∃ (rs : List ChangeRow) (r : ChangeRow),
    (∀ x ∈ rs ++ [r], x ∈ st.feed)
    ∧ handleChanges st cb ((rs ++ [r]).map (fun x => x.id)) = none
    ∧ r.seq = w

/-- Invariants of the checkpoint writes `w` of one run segment going from
statefile `f₀` to statefile `f₁`: strictly increasing; each at least 1 and
past the checkpoint loaded from `f₀`; no writes leave the statefile
untouched; the last write is what the final statefile holds; every write is
the sequence of a fully handled batch. -/
def WritesOK (st : ChStore) (cb : Handlers E) (w : List Int) (f₀ f₁ : Option String) : Prop :=
  List.Chain' (fun x y => x < y) w
  ∧ (∀ x ∈ w, 1 ≤ x ∧ ∀ s, pySince (readStartkey f₀) = some s → s < x)
  ∧ (w = [] → f₁ = f₀)
  ∧ (∀ lw, w.getLast? = some lw → readStartkey f₁ = some lw)
  ∧ (∀ x ∈ w, goodWrite st cb x)

theorem pySince_of_pos {x : Int} (hx : 1 ≤ x) : pySince (some x) = some x := by
  have hne : x ≠ 0 := by omega
  simp [pySince, hne]

theorem WritesOK_nil (st : ChStore) (cb : Handlers E) (f : Option String) :
    WritesOK st cb [] f f :=
  ⟨List.chain'_nil, fun x hx => absurd hx (by simp), fun _ => rfl,
    fun lw hlw => by simp at hlw, fun x hx => absurd hx (by simp)⟩

theorem WritesOK_append (st : ChStore) (cb : Handlers E)
    (w₁ w₂ : List Int) (f₀ f₁ f₂ : Option String)
    (h1 : WritesOK st cb w₁ f₀ f₁) (h2 : WritesOK st cb w₂ f₁ f₂) :
    WritesOK st cb (w₁ ++ w₂) f₀ f₂ := by
  obtain ⟨c1, b1, e1, l1, g1⟩ := h1
  obtain ⟨c2, b2, e2, l2, g2⟩ := h2
  have hlink : ∀ y ∈ w₂, ∀ s, pySince (readStartkey f₀) = some s → s < y := by
    intro y hy s hs
    rcases hw1 : w₁ with _ | ⟨a, t⟩
    · have hf : f₁ = f₀ := e1 hw1
      exact (b2 y hy).2 s (by rw [hf]; exact hs)
    · rcases hgl : w₁.getLast? with _ | lw
      · rw [List.getLast?_eq_none_iff, hw1] at hgl
        exact absurd hgl (by simp)
      · have hlwmem : lw ∈ w₁ := lastMem hgl
        have h1lw : 1 ≤ lw := (b1 lw hlwmem).1
        have hrd : readStartkey f₁ = some lw := l1 lw hgl
        have hlt : lw < y := (b2 y hy).2 lw (by rw [hrd]; exact pySince_of_pos h1lw)
        have hslw : s < lw := (b1 lw hlwmem).2 s hs
        omega
  refine ⟨?_, ?_, ?_, ?_, ?_⟩
  · refine List.chain'_append.2 ⟨c1, c2, ?_⟩
    intro x hx y hy
    have hgl : w₁.getLast? = some x := Option.mem_def.1 hx
    have hymem : y ∈ w₂ := headMem (Option.mem_def.1 hy)
    have hxmem : x ∈ w₁ := lastMem hgl
    have hrd : readStartkey f₁ = some x := l1 x hgl
    exact (b2 y hymem).2 x (by rw [hrd]; exact pySince_of_pos (b1 x hxmem).1)
  · intro x hx
    rcases List.mem_append.1 hx with hx1 | hx2
    · exact b1 x hx1
    · exact ⟨(b2 x hx2).1, fun s hs => hlink x hx2 s hs⟩
  · intro hnil
    rcases List.append_eq_nil.1 hnil with ⟨hn1, hn2⟩
    rw [e2 hn2, e1 hn1]
  · intro lw hlw
    rw [List.getLast?_append] at hlw
    rcases hgl2 : w₂.getLast? with _ | lw2
    · rw [hgl2] at hlw
      rw [e2 (List.getLast?_eq_none_iff.1 hgl2)]
      exact l1 lw hlw
    · rw [hgl2] at hlw
      have hlw2 : lw2 = lw := Option.some.inj hlw
      subst hlw2
      exact l2 lw2 hgl2
  · intro x hx
    rcases List.mem_append.1 hx with hx1 | hx2
    · exact g1 x hx1
    · exact g2 x hx2

/-- Master invariant of the `run_once` loop: the writes are well-behaved and
a surfacing handler error means the batch refetched at the persisted
checkpoint fails identically (redelivery). -/
theorem runOnceAux_master (st : ChStore) (cb : Handlers E) (bs : Nat)
    (hpos : ∀ r ∈ st.feed, 1 ≤ r.seq) :
    ∀ (fuel : Nat) (startkey sinceOpt : Option Int) (file : Option String),
      readStartkey file = startkey →
      ((startkey = none ∨ startkey = some 0) → sinceOpt = none) →
      WritesOK st cb (runOnceAux st cb bs fuel startkey sinceOpt file).writes file
        (runOnceAux st cb bs fuel startkey sinceOpt file).file
      ∧ (∀ e, (runOnceAux st cb bs fuel startkey sinceOpt file).err = some e →
          ∃ rs, rs = changesFetch st
              (pySince (readStartkey (runOnceAux st cb bs fuel startkey sinceOpt file).file)) bs
            ∧ rs ≠ [] ∧ handleChanges st cb (rs.map (fun r => r.id)) = some e) := by
  intro fuel
  induction fuel with
  | zero =>
    intro startkey sinceOpt file hread hz
    exact ⟨WritesOK_nil st cb file, fun e he => by simp [runOnceAux] at he⟩
  | succ fuel ih =>
    intro startkey sinceOpt file hread hz
    simp only [runOnceAux]
    rw [effSince_pySince startkey sinceOpt hz]
    rcases hL : (changesFetch st (pySince startkey) bs).getLast? with _ | lastRow
    · simp only [hL]
      exact ⟨WritesOK_nil st cb file, fun e he => by simp at he⟩
    · simp only [hL]
      rcases hH : handleChanges st cb
          ((changesFetch st (pySince startkey) bs).map (fun r => r.id)) with _ | e
      · simp only [hH]
        have hmemF : lastRow ∈ changesFetch st (pySince startkey) bs := lastMem hL
        have hfeed : lastRow ∈ st.feed := mem_changesFetch _ _ _ _ hmemF
        have h1 : (1 : Int) ≤ lastRow.seq := hpos _ hfeed
        have hheadB : ∀ s, pySince startkey = some s → s < lastRow.seq := by
          intro s hs
          rw [hs] at hmemF
          exact contChanges_lt st s lastRow (List.take_subset _ _ hmemF)
        obtain ⟨⟨ihC, ihB, ihE, ihL, ihG⟩, ihErr⟩ :=
          ih (some lastRow.seq) (pySince startkey) (some (strOfInt lastRow.seq))
            (readStartkey_strOfInt _)
            (by rintro (hc | hc)
                · exact Option.noConfusion hc
                · exfalso
                  have := Option.some.inj hc
                  omega)
        constructor
        · refine ⟨?_, ?_, ?_, ?_, ?_⟩
          · refine List.chain'_cons'.2 ⟨?_, ihC⟩
            intro y hy
            have hmem : y ∈ (runOnceAux st cb bs fuel (some lastRow.seq) (pySince startkey)
                (some (strOfInt lastRow.seq))).writes := headMem (Option.mem_def.1 hy)
            exact (ihB y hmem).2 lastRow.seq
              (by rw [readStartkey_strOfInt]; exact pySince_of_pos h1)
          · intro x hx
            rcases List.mem_cons.1 hx with rfl | hx2
            · exact ⟨h1, fun s hs => hheadB s (by rw [← hread]; exact hs)⟩
            · refine ⟨(ihB x hx2).1, fun s hs => ?_⟩
              rw [hread] at hs
              have h2 := (ihB x hx2).2 lastRow.seq
                (by rw [readStartkey_strOfInt]; exact pySince_of_pos h1)
              have h3 := hheadB s hs
              omega
          · intro hcontra
            exact absurd hcontra (by simp)
          · intro lw hlw
            rcases howw : (runOnceAux st cb bs fuel (some lastRow.seq) (pySince startkey)
                (some (strOfInt lastRow.seq))).writes with _ | ⟨w', ws'⟩
            · rw [howw] at hlw
              simp at hlw
              subst hlw
              rw [ihE howw]
              exact readStartkey_strOfInt _
            · rw [howw, List.getLast?_cons_cons] at hlw
              exact ihL lw (by rw [howw]; exact hlw)
          · intro x hx
            rcases List.mem_cons.1 hx with rfl | hx2
            · obtain ⟨ys, hys⟩ := List.getLast?_eq_some_iff.1 hL
              refine ⟨ys, lastRow, ?_, ?_, rfl⟩
              · intro z hz
                exact mem_changesFetch st (pySince startkey) bs z (hys ▸ hz)
              · rw [← hys]
                exact hH
            · exact ihG x hx2
        · intro e he
          exact ihErr e he
      · simp only [hH]
        refine ⟨WritesOK_nil st cb file, fun e' he' => ?_⟩
        have hee : e = e' := Option.some.inj he'
        subst hee
        refine ⟨changesFetch st (pySince startkey) bs, by rw [hread], ?_, hH⟩
        intro hnil
        rw [hnil] at hL
        simp at hL

/-! Continuous mode (`run_forever`) and sequences of runs. -/

/-- The continuous loop of `ChangesProcessor.run_forever`: per received
event, `handle_changes([event.id])` then persist the event's sequence; a
handler error escapes with the statefile untouched for that event.  The
unbounded stream is modelled by the finite list of events the feed
delivers. -/
def runForeverAux (st : ChStore) (cb : Handlers E) :
    List ChangeRow → Option String → RunOut E
  | [], file => ⟨none, file, []⟩
  | o :: os, file =>
    match handleChanges st cb [o.id] with
    | some e => ⟨some e, file, []⟩
    | none =>
      let out := runForeverAux st cb os (some (strOfInt o.seq))
      ⟨out.err, out.file, o.seq :: out.writes⟩

/-- `ChangesProcessor.run_forever`: drain the backlog with `run_once`, then
follow the continuous feed from the re-read checkpoint (`since` passed only
when the startkey is truthy). -/
def runForever (st : ChStore) (cb : Handlers E) (bs fuel : Nat)
    (file : Option String) : RunOut E :=
  let r1 := runOnce st cb bs fuel file
  match r1.err with
  | some e => ⟨some e, r1.file, r1.writes⟩
  | none =>
    let out := runForeverAux st cb
      (contChanges st (pySince (readStartkey r1.file))) r1.file
    ⟨out.err, out.file, r1.writes ++ out.writes⟩

/-- How the process is run across restarts: a ONE_SHOT call or a
CONTINUOUS call; POLL is a sequence of ONE_SHOT runs. -/
inductive RunMode where
  | oneShot : RunMode
  | forever : RunMode

/-- One run in the chosen mode. -/
def doRun (st : ChStore) (cb : Handlers E) (bs fuel : Nat) :
    RunMode → Option String → RunOut E
  | .oneShot, file => runOnce st cb bs fuel file
  | .forever, file => runForever st cb bs fuel file

/-- A sequence of runs sharing the statefile: the concatenated checkpoint
writes and the final statefile. -/
def doRuns (st : ChStore) (cb : Handlers E) (bs fuel : Nat) :
    List RunMode → Option String → List Int × Option String
  | [], file => ([], file)
  | m :: ms, file =>
    let r := doRun st cb bs fuel m file
    let rest := doRuns st cb bs fuel ms r.file
    (r.writes ++ rest.1, rest.2)

theorem filter_seq_step (o : ChangeRow) (os : List ChangeRow) (s : Int) :
    ∀ l : List ChangeRow, l.Pairwise (fun a b => a.seq < b.seq) →
      l.filter (fun r => decide (s < r.seq)) = o :: os →
      l.filter (fun r => decide (o.seq < r.seq)) = os := by
  intro l
  induction l with
  | nil => intro _ h; simp at h
  | cons r tl ih =>
    intro hpw h
    obtain ⟨hall, htl⟩ := List.pairwise_cons.1 hpw
    by_cases hs : s < r.seq
    · rw [List.filter_cons_of_pos (by simpa using hs)] at h
      obtain ⟨hro, hos⟩ := List.cons.inj h
      subst hro
      rw [List.filter_cons_of_neg (by simp)]
      rw [List.filter_eq_self.2 (fun a ha => by simpa using hall a ha), ← hos,
        List.filter_eq_self.2 (fun a ha => by
          have := hall a ha
          simp
          omega)]
    · rw [List.filter_cons_of_neg (by simpa using hs)] at h
      have ho : o ∈ tl := List.mem_of_mem_filter (h ▸ List.mem_cons_self o os)
      have hro : r.seq < o.seq := hall o ho
      rw [List.filter_cons_of_neg (by simp; omega)]
      exact ih htl h

theorem contChanges_step (st : ChStore)
    (hpw : st.feed.Pairwise (fun a b => a.seq < b.seq))
    (c : Option Int) (o : ChangeRow) (os : List ChangeRow)
    (h : contChanges st c = o :: os) :
    contChanges st (some o.seq) = os := by
  cases c with
  | some s => exact filter_seq_step o os s st.feed hpw h
  | none =>
    have hfeed : st.feed = o :: os := h
    show st.feed.filter (fun r => decide (o.seq < r.seq)) = os
    rw [hfeed]
    obtain ⟨hall, _⟩ := List.pairwise_cons.1 (hfeed ▸ hpw)
    rw [List.filter_cons_of_neg (by simp)]
    exact List.filter_eq_self.2 (fun a ha => by simpa using hall a ha)

/-- Master invariant of the continuous loop: well-behaved writes, and a
surfacing handler error means the event refetched at the persisted
checkpoint (a one-entry fetch) fails identically. -/
theorem runForeverAux_master (st : ChStore) (cb : Handlers E)
    (hpw : st.feed.Pairwise (fun a b => a.seq < b.seq))
    (hpos : ∀ r ∈ st.feed, 1 ≤ r.seq) :
    ∀ (events : List ChangeRow) (file : Option String),
      contChanges st (pySince (readStartkey file)) = events →
      WritesOK st cb (runForeverAux st cb events file).writes file
        (runForeverAux st cb events file).file
      ∧ (∀ e, (runForeverAux st cb events file).err = some e →
          ∃ rs, rs = changesFetch st
              (pySince (readStartkey (runForeverAux st cb events file).file)) 1
            ∧ rs ≠ [] ∧ handleChanges st cb (rs.map (fun r => r.id)) = some e) := by
  intro events
  induction events with
  | nil =>
    intro file hev
    exact ⟨WritesOK_nil st cb file, fun e he => by simp [runForeverAux] at he⟩
  | cons o os ih =>
    intro file hev
    simp only [runForeverAux]
    have homem : o ∈ st.feed := mem_contChanges st _ o (by rw [hev]; simp)
    have h1 : (1 : Int) ≤ o.seq := hpos _ homem
    have hstep : contChanges st (some o.seq) = os :=
      contChanges_step st hpw _ o os hev
    have hev' : contChanges st (pySince (readStartkey (some (strOfInt o.seq)))) = os := by
      rw [readStartkey_strOfInt, pySince_of_pos h1]
      exact hstep
    have hheadB : ∀ s, pySince (readStartkey file) = some s → s < o.seq := by
      intro s hs
      rw [hs] at hev
      exact contChanges_lt st s o (by rw [hev]; simp)
    rcases hH : handleChanges st cb [o.id] with _ | e
    · simp only [hH]
      obtain ⟨⟨ihC, ihB, ihE, ihL, ihG⟩, ihErr⟩ := ih (some (strOfInt o.seq)) hev'
      constructor
      · refine ⟨?_, ?_, ?_, ?_, ?_⟩
        · refine List.chain'_cons'.2 ⟨?_, ihC⟩
          intro y hy
          have hmem : y ∈ (runForeverAux st cb os (some (strOfInt o.seq))).writes :=
            headMem (Option.mem_def.1 hy)
          exact (ihB y hmem).2 o.seq
            (by rw [readStartkey_strOfInt]; exact pySince_of_pos h1)
        · intro x hx
          rcases List.mem_cons.1 hx with rfl | hx2
          · exact ⟨h1, hheadB⟩
          · refine ⟨(ihB x hx2).1, fun s hs => ?_⟩
            have h2 := (ihB x hx2).2 o.seq
              (by rw [readStartkey_strOfInt]; exact pySince_of_pos h1)
            have h3 := hheadB s hs
            omega
        · intro hcontra
          exact absurd hcontra (by simp)
        · intro lw hlw
          rcases howw : (runForeverAux st cb os (some (strOfInt o.seq))).writes
            with _ | ⟨w', ws'⟩
          · rw [howw] at hlw
            simp at hlw
            subst hlw
            rw [ihE howw]
            exact readStartkey_strOfInt _
          · rw [howw, List.getLast?_cons_cons] at hlw
            exact ihL lw (by rw [howw]; exact hlw)
        · intro x hx
          rcases List.mem_cons.1 hx with rfl | hx2
          · refine ⟨[], o, ?_, by simpa using hH, rfl⟩
            intro z hz
            simp at hz
            subst hz
            exact homem
          · exact ihG x hx2
      · intro e he
        exact ihErr e he
    · simp only [hH]
      refine ⟨WritesOK_nil st cb file, fun e' he' => ?_⟩
      have hee : e = e' := Option.some.inj he'
      subst hee
      refine ⟨[o], ?_, by simp, by simpa using hH⟩
      unfold changesFetch
      rw [hev]
      rfl

/-- Master invariant of `run_forever`: the backlog drain and the continuous
phase compose. -/
theorem runForever_master (st : ChStore) (cb : Handlers E) (bs fuel : Nat)
    (file : Option String)
    (hpw : st.feed.Pairwise (fun a b => a.seq < b.seq))
    (hpos : ∀ r ∈ st.feed, 1 ≤ r.seq) :
    WritesOK st cb (runForever st cb bs fuel file).writes file
      (runForever st cb bs fuel file).file
    ∧ (∀ e, (runForever st cb bs fuel file).err = some e →
        ∃ (lim : Nat) (rs : List ChangeRow), rs = changesFetch st
            (pySince (readStartkey (runForever st cb bs fuel file).file)) lim
          ∧ rs ≠ [] ∧ handleChanges st cb (rs.map (fun r => r.id)) = some e) := by
  obtain ⟨M1, M1err⟩ := runOnceAux_master st cb bs hpos fuel (readStartkey file) none file
    rfl (fun _ => rfl)
  unfold runForever
  rcases hE : (runOnce st cb bs fuel file).err with _ | e
  · simp only [hE]
    obtain ⟨M2, M2err⟩ := runForeverAux_master st cb hpw hpos
      (contChanges st (pySince (readStartkey (runOnce st cb bs fuel file).file)))
      (runOnce st cb bs fuel file).file rfl
    constructor
    · exact WritesOK_append st cb _ _ file _ _ M1 M2
    · intro e' he'
      obtain ⟨rs, h1, h2, h3⟩ := M2err e' he'
      exact ⟨1, rs, h1, h2, h3⟩
  · simp only [hE]
    constructor
    · exact M1
    · intro e' he'
      have hee : e = e' := Option.some.inj he'
      subst hee
      obtain ⟨rs, h1, h2, h3⟩ := M1err e hE
      exact ⟨bs, rs, h1, h2, h3⟩

theorem doRun_master (st : ChStore) (cb : Handlers E) (bs fuel : Nat)
    (m : RunMode) (file : Option String)
    (hpw : st.feed.Pairwise (fun a b => a.seq < b.seq))
    (hpos : ∀ r ∈ st.feed, 1 ≤ r.seq) :
    WritesOK st cb (doRun st cb bs fuel m file).writes file
      (doRun st cb bs fuel m file).file := by
  cases m with
  | oneShot =>
    exact (runOnceAux_master st cb bs hpos fuel (readStartkey file) none file
      rfl (fun _ => rfl)).1
  | forever => exact (runForever_master st cb bs fuel file hpw hpos).1

theorem doRuns_master (st : ChStore) (cb : Handlers E) (bs fuel : Nat)
    (hpw : st.feed.Pairwise (fun a b => a.seq < b.seq))
    (hpos : ∀ r ∈ st.feed, 1 ≤ r.seq) :
    ∀ (modes : List RunMode) (file : Option String),
      WritesOK st cb (doRuns st cb bs fuel modes file).1 file
        (doRuns st cb bs fuel modes file).2 := by
  intro modes
  induction modes with
  | nil => intro file; exact WritesOK_nil st cb file
  | cons m ms ih =>
    intro file
    simp only [doRuns]
    exact WritesOK_append st cb _ _ file _ _
      (doRun_master st cb bs fuel m file hpw hpos)
      (ih (doRun st cb bs fuel m file).file)

/-! ## C5 — handler errors escape; the checkpoint is not advanced -/

/-- C5: a handler error is not caught: it is the run's result (`err`), and
the persisted checkpoint still holds its pre-batch value, in the sense that
re-fetching from the final statefile reproduces exactly the failing batch
(for ONE_SHOT, a `batch_size`-limited fetch) or the failing event (for
CONTINUOUS, a 1-entry fetch), and its handlers fail with the same error —
at-least-once redelivery on the next run. -/
theorem claim_C5 (st : ChStore) (cb : Handlers E) (bs fuel : Nat)
    (hpw : st.feed.Pairwise (fun a b => a.seq < b.seq))
    (hpos : ∀ r ∈ st.feed, 1 ≤ r.seq) :
    (∀ (file : Option String) (e : E), (runOnce st cb bs fuel file).err = some e →
        ∃ rs, rs = changesFetch st
            (pySince (readStartkey (runOnce st cb bs fuel file).file)) bs
          ∧ rs ≠ [] ∧ handleChanges st cb (rs.map (fun r => r.id)) = some e)
    ∧ (∀ (file : Option String) (e : E), (runForever st cb bs fuel file).err = some e →
        ∃ (lim : Nat) (rs : List ChangeRow), rs = changesFetch st
            (pySince (readStartkey (runForever st cb bs fuel file).file)) lim
          ∧ rs ≠ [] ∧ handleChanges st cb (rs.map (fun r => r.id)) = some e) := by
  constructor
  · intro file e he
    exact (runOnceAux_master st cb bs hpos fuel (readStartkey file) none file
      rfl (fun _ => rfl)).2 e he
  · intro file e he
    exact (runForever_master st cb bs fuel file hpw hpos).2 e he

/-- C5 witness: an update handler that always fails with error `7` over a
two-entry feed; the run surfaces `7` and the fetch at the final statefile
returns the same failing batch. -/
theorem claim_C5_witness :
    ((ChStore.mk [⟨"a", 1⟩, ⟨"b", 2⟩] (fun _ => some "d")).feed.Pairwise
        (fun a b => a.seq < b.seq))
    ∧ (∀ r ∈ (ChStore.mk [⟨"a", 1⟩, ⟨"b", 2⟩] (fun _ => some "d")).feed, 1 ≤ r.seq)
    ∧ ((runOnce (ChStore.mk [⟨"a", 1⟩, ⟨"b", 2⟩] (fun _ => some "d"))
        (Handlers.mk (fun _ => Except.error 7) (fun _ => Except.ok ()) : Handlers Nat)
        2 3 none).err = some 7)
    ∧ (∃ rs, rs = changesFetch (ChStore.mk [⟨"a", 1⟩, ⟨"b", 2⟩] (fun _ => some "d"))
          (pySince (readStartkey (runOnce (ChStore.mk [⟨"a", 1⟩, ⟨"b", 2⟩]
              (fun _ => some "d"))
            (Handlers.mk (fun _ => Except.error 7) (fun _ => Except.ok ()) : Handlers Nat)
            2 3 none).file)) 2
        ∧ rs ≠ []
        ∧ handleChanges (ChStore.mk [⟨"a", 1⟩, ⟨"b", 2⟩] (fun _ => some "d"))
            (Handlers.mk (fun _ => Except.error 7) (fun _ => Except.ok ()))
            (rs.map (fun r => r.id)) = some 7) :=
  ⟨by decide, by decide, rfl,
    (claim_C5 (ChStore.mk [⟨"a", 1⟩, ⟨"b", 2⟩] (fun _ => some "d"))
      (Handlers.mk (fun _ => Except.error 7) (fun _ => Except.ok ()))
      2 3 (by decide) (by decide)).1 none 7 rfl⟩

/-! ## C6 — checkpoint monotone, never past a fully handled event -/

/-- C6: across any sequence of ONE_SHOT / CONTINUOUS runs (POLL being
repeated ONE_SHOT) over a feed with strictly increasing positive sequences,
the persisted checkpoint values form a non-decreasing sequence, and every
persisted value is the sequence of the last entry of a batch whose handlers
all completed without error — so the checkpoint never exceeds the latest
fully handled event. -/
theorem claim_C6 (st : ChStore) (cb : Handlers E) (bs fuel : Nat)
    (modes : List RunMode) (file : Option String)
    (hpw : st.feed.Pairwise (fun a b => a.seq < b.seq))
    (hpos : ∀ r ∈ st.feed, 1 ≤ r.seq) :
    List.Chain' (fun x y => x ≤ y) (doRuns st cb bs fuel modes file).1
    ∧ ∀ w ∈ (doRuns st cb bs fuel modes file).1, goodWrite st cb w := by
  obtain ⟨c, b, _, _, g⟩ := doRuns_master st cb bs fuel hpw hpos modes file
  exact ⟨c.imp (fun _ _ hxy => le_of_lt hxy), g⟩

/-- C6 witness: a ONE_SHOT run followed by a CONTINUOUS run over a concrete
three-entry feed. -/
theorem claim_C6_witness :
    ((ChStore.mk [⟨"a", 1⟩, ⟨"b", 2⟩, ⟨"c", 3⟩]
        (fun i => if i = "a" then some "da" else none)).feed.Pairwise
        (fun a b => a.seq < b.seq))
    ∧ (∀ r ∈ (ChStore.mk [⟨"a", 1⟩, ⟨"b", 2⟩, ⟨"c", 3⟩]
        (fun i => if i = "a" then some "da" else none)).feed, 1 ≤ r.seq)
    ∧ (List.Chain' (fun x y => x ≤ y)
        (doRuns (ChStore.mk [⟨"a", 1⟩, ⟨"b", 2⟩, ⟨"c", 3⟩]
            (fun i => if i = "a" then some "da" else none))
          (Handlers.mk (fun _ => Except.ok ()) (fun _ => Except.ok ()) : Handlers Nat)
          2 5 [RunMode.oneShot, RunMode.forever] none).1
      ∧ ∀ w ∈ (doRuns (ChStore.mk [⟨"a", 1⟩, ⟨"b", 2⟩, ⟨"c", 3⟩]
            (fun i => if i = "a" then some "da" else none))
          (Handlers.mk (fun _ => Except.ok ()) (fun _ => Except.ok ()) : Handlers Nat)
          2 5 [RunMode.oneShot, RunMode.forever] none).1,
          goodWrite (ChStore.mk [⟨"a", 1⟩, ⟨"b", 2⟩, ⟨"c", 3⟩]
            (fun i => if i = "a" then some "da" else none))
            (Handlers.mk (fun _ => Except.ok ()) (fun _ => Except.ok ()) : Handlers Nat) w) :=
  ⟨by decide, by decide,
    claim_C6 (ChStore.mk [⟨"a", 1⟩, ⟨"b", 2⟩, ⟨"c", 3⟩]
        (fun i => if i = "a" then some "da" else none))
      (Handlers.mk (fun _ => Except.ok ()) (fun _ => Except.ok ()))
      2 5 [RunMode.oneShot, RunMode.forever] none (by decide) (by decide)⟩

end Couchutil
